import Mathlib

/-!
Verification of the command execution and built-in dispatch engine of a
minimal interactive shell (source: src/src/lab.c).

The C functions are shallowly embedded as Lean functions:
* `tokenize` models the `strtok(line_copy, " ")` loop inside `cmd_parse`
  (lab.c lines 65-72): it yields the successive tokens `strtok` returns for
  the single-character delimiter set `" "`.
* `cmd_parse` models lab.c lines 61-77 on the successful-allocation path:
  the contents of the returned array, cell by cell, up to and including the
  terminating NULL cell (`none`).
* `change_dir` models lab.c lines 114-130; the OS environment (`getenv`,
  `getpwuid`, `chdir`) is abstracted by an `Env` record, and the result
  records the return value, the working directory after the call, and
  whether `perror` was invoked.
* `do_builtin` models lab.c lines 139-157; the `exit` branch is the
  `DispatchResult.exitShell` outcome (the process terminates), the others
  return a handled/not-handled flag.
* `execute_command` models lab.c lines 202-222 as the list of observable
  events of the continuation selected by the outcome of `fork()`.
-/

/-- One step of the `strtok` loop of `cmd_parse` (lab.c 65-72), written with
an explicit accumulator for the characters of the token currently being
scanned. `strtok` with delimiter set `" "` skips runs of the single
character `' '` and returns each maximal run of non-`' '` characters. -/
def tokenizeAux : List Char → List Char → List (List Char)
  | [], acc => if acc.isEmpty then [] else [acc.reverse]
  | c :: cs, acc =>
    if c = ' ' then
      if acc.isEmpty then tokenizeAux cs []
      else acc.reverse :: tokenizeAux cs []
    else tokenizeAux cs (c :: acc)

/-- The full sequence of tokens `strtok(line_copy, " ")` produces inside
`cmd_parse` (lab.c 65-72). -/
def tokenize (line : List Char) : List (List Char) :=
  tokenizeAux line []

/-- The `while (token && i < ARG_MAX - 1)` loop of `cmd_parse`
(lab.c 69-73): it copies tokens into the array while the index is below
`argMax - 1`, then writes the terminating NULL cell.  `argMax` stands for
the runtime value of `ARG_MAX` (`sysconf(_SC_ARG_MAX)`). -/
def cmdParseLoop (argMax : Nat) : List (List Char) → Nat → List (Option (List Char))
  | [], _ => [none]
  | t :: ts, i =>
    if i < argMax - 1 then some t :: cmdParseLoop argMax ts (i + 1)
    else [none]

/-- Embedding of `cmd_parse` (lab.c 61-77) on the successful-allocation
path: the cells of the returned array up to and including the terminating
NULL cell. -/
def cmd_parse (argMax : Nat) (line : List Char) : List (Option (List Char)) :=
  cmdParseLoop argMax (tokenize line) 0

/-- Whether a character is in C's `isspace` set (the claim's notion of
whitespace: ASCII space and the other standard whitespace characters). -/
def isWhite (c : Char) : Bool :=
  c = ' ' || c = '\t' || c = '\n' || c = '\x0b' || c = '\x0c' || c = '\x0d'

/-- Fuelled form of `maxRuns` (the fuel only serves Lean's structural
recursion; `maxRuns` supplies enough of it for the fuel never to run out). -/
def maxRunsF (p : Char → Bool) : Nat → List Char → List (List Char)
  | _, [] => []
  | 0, _ :: _ => []
  | fuel + 1, c :: cs =>
    if p c then maxRunsF p fuel cs
    else (c :: cs.takeWhile (fun d => !p d)) :: maxRunsF p fuel (cs.dropWhile (fun d => !p d))

/-- The maximal runs of characters not satisfying `p`, specified directly:
skip delimiters, take the maximal run (`takeWhile`), continue after it
(`dropWhile`). -/
def maxRuns (p : Char → Bool) (l : List Char) : List (List Char) :=
  maxRunsF p l.length l

theorem length_dropWhile_le (p : Char → Bool) (l : List Char) :
    (l.dropWhile p).length ≤ l.length := by
  induction l with
  | nil => simp
  | cons c cs ih =>
    by_cases h : p c
    · rw [List.dropWhile_cons_of_pos h]
      exact Nat.le_succ_of_le ih
    · rw [List.dropWhile_cons_of_neg h]

theorem maxRunsF_congr (p : Char → Bool) :
    ∀ fuel fuel' (l : List Char), l.length ≤ fuel → l.length ≤ fuel' →
      maxRunsF p fuel l = maxRunsF p fuel' l := by
  intro fuel
  induction fuel with
  | zero =>
    intro fuel' l h _
    have : l = [] := List.length_eq_zero.mp (Nat.le_zero.mp h)
    subst this
    cases fuel' <;> rfl
  | succ f ih =>
    intro fuel' l h h'
    cases l with
    | nil => cases fuel' <;> rfl
    | cons c cs =>
      cases fuel' with
      | zero => exact absurd h' (by simp)
      | succ f' =>
        simp only [maxRunsF]
        by_cases hc : p c
        · simp only [hc, if_true]
          exact ih f' cs (by simpa using h) (by simpa using h')
        · have hd : (cs.dropWhile (fun d => !p d)).length ≤ cs.length :=
            length_dropWhile_le _ cs
          rw [ih f' (cs.dropWhile (fun d => !p d))
            (Nat.le_trans hd (by simpa using h)) (Nat.le_trans hd (by simpa using h'))]
          simp [hc]

theorem maxRuns_nil (p : Char → Bool) : maxRuns p [] = [] := rfl

theorem maxRuns_cons (p : Char → Bool) (c : Char) (cs : List Char) :
    maxRuns p (c :: cs) =
      if p c then maxRuns p cs
      else (c :: cs.takeWhile (fun d => !p d)) ::
        maxRuns p (cs.dropWhile (fun d => !p d)) := by
  show maxRunsF p (cs.length + 1) (c :: cs) = _
  simp only [maxRunsF, maxRuns]
  by_cases hc : p c
  · simp [hc]
  · simp only [hc, if_false]
    rw [maxRunsF_congr p cs.length (cs.dropWhile (fun d => !p d)).length
      (cs.dropWhile (fun d => !p d)) (length_dropWhile_le _ cs) (Nat.le_refl _)]

/-- Maximal runs of non-space characters (delimiter: ASCII space only, the
delimiter set actually passed to `strtok` in lab.c line 68). -/
def maxNonSpaceRuns (l : List Char) : List (List Char) :=
  maxRuns (fun c => c = ' ') l

/-- Maximal runs of non-whitespace characters, following the claim's words
(whitespace = C `isspace`): the token sequence the spec describes. -/
def maxNonWhiteRuns (l : List Char) : List (List Char) :=
  maxRuns isWhite l

/-- Rejoining a token sequence with single spaces. -/
def joinTokens : List (List Char) → List Char
  | [] => []
  | [t] => t
  | t :: t' :: ts => t ++ ' ' :: joinTokens (t' :: ts)

theorem tokenizeAux_eq (l : List Char) : ∀ acc : List Char,
    tokenizeAux l acc =
      if acc.isEmpty then maxNonSpaceRuns l
      else (acc.reverse ++ l.takeWhile (fun d => !(d = ' '))) ::
        maxNonSpaceRuns (l.dropWhile (fun d => !(d = ' '))) := by
  induction l with
  | nil =>
    intro acc
    cases acc <;> simp [tokenizeAux, maxNonSpaceRuns, maxRuns, maxRunsF]
  | cons c cs ih =>
    intro acc
    by_cases hc : c = ' '
    · subst hc
      have hrun : maxNonSpaceRuns (' ' :: cs) = maxNonSpaceRuns cs := by
        simp [maxNonSpaceRuns, maxRuns_cons]
      cases acc with
      | nil => simp [tokenizeAux, ih, hrun]
      | cons a as =>
        simp only [tokenizeAux, ih, if_true, List.isEmpty_cons]
        simp [hrun]
    · have htake : (c :: cs).takeWhile (fun d => !(d = ' ')) =
          c :: cs.takeWhile (fun d => !(d = ' ')) :=
        List.takeWhile_cons_of_pos (by simpa using hc)
      have hdrop : (c :: cs).dropWhile (fun d => !(d = ' ')) =
          cs.dropWhile (fun d => !(d = ' ')) :=
        List.dropWhile_cons_of_pos (by simpa using hc)
      have hrun : maxNonSpaceRuns (c :: cs) =
          (c :: cs.takeWhile (fun d => !(d = ' '))) ::
            maxNonSpaceRuns (cs.dropWhile (fun d => !(d = ' '))) := by
        simp only [maxNonSpaceRuns, maxRuns_cons]
        simp [hc]
      simp only [tokenizeAux, if_neg hc, ih (c :: acc), List.isEmpty_cons]
      cases acc with
      | nil => simp [hrun]
      | cons a as => simp [htake, hdrop]

theorem tokenize_eq_maxNonSpaceRuns (l : List Char) :
    tokenize l = maxNonSpaceRuns l := by
  simp [tokenize, tokenizeAux_eq]

theorem maxRunsF_mem (p : Char → Bool) :
    ∀ fuel (l : List Char), ∀ t ∈ maxRunsF p fuel l,
      t ≠ [] ∧ ∀ c ∈ t, p c = false := by
  intro fuel
  induction fuel with
  | zero => intro l t ht; cases l <;> simp [maxRunsF] at ht
  | succ f ih =>
    intro l t ht
    cases l with
    | nil => simp [maxRunsF] at ht
    | cons c cs =>
      simp only [maxRunsF] at ht
      by_cases hc : p c
      · rw [if_pos hc] at ht
        exact ih cs t ht
      · rw [if_neg hc] at ht
        rcases List.mem_cons.mp ht with h | h
        · subst h
          refine ⟨by simp, ?_⟩
          intro d hd
          rcases List.mem_cons.mp hd with h | h
          · subst h; simpa using hc
          · have := List.mem_takeWhile_imp h
            simpa using this
        · exact ih _ t h

theorem maxRuns_mem (p : Char → Bool) (l : List Char) :
    ∀ t ∈ maxRuns p l, t ≠ [] ∧ ∀ c ∈ t, p c = false :=
  maxRunsF_mem p l.length l

theorem tokenize_no_space (l : List Char) :
    ∀ t ∈ tokenize l, t ≠ [] ∧ ∀ c ∈ t, c ≠ ' ' := by
  intro t ht
  rw [tokenize_eq_maxNonSpaceRuns] at ht
  obtain ⟨hne, hc⟩ := maxRuns_mem _ l t ht
  exact ⟨hne, fun c hcmem => by simpa using hc c hcmem⟩

theorem takeWhile_append_of_all (p : Char → Bool) (r : List Char) :
    ∀ t : List Char, (∀ c ∈ t, p c = true) → ∀ x, p x = false →
      (t ++ x :: r).takeWhile p = t := by
  intro t
  induction t with
  | nil =>
    intro _ x hx
    simp only [List.nil_append]
    exact List.takeWhile_cons_of_neg (by simp [hx])
  | cons c cs ih =>
    intro h x hx
    have hc : p c = true := h c (List.mem_cons_self c cs)
    simp only [List.cons_append, List.takeWhile_cons_of_pos hc]
    rw [ih (fun d hd => h d (List.mem_cons_of_mem c hd)) x hx]

theorem dropWhile_append_of_all (p : Char → Bool) (r : List Char) :
    ∀ t : List Char, (∀ c ∈ t, p c = true) → ∀ x, p x = false →
      (t ++ x :: r).dropWhile p = x :: r := by
  intro t
  induction t with
  | nil =>
    intro _ x hx
    simp only [List.nil_append]
    exact List.dropWhile_cons_of_neg (by simp [hx])
  | cons c cs ih =>
    intro h x hx
    have hc : p c = true := h c (List.mem_cons_self c cs)
    simp only [List.cons_append, List.dropWhile_cons_of_pos hc]
    exact ih (fun d hd => h d (List.mem_cons_of_mem c hd)) x hx

theorem tokenize_single (t : List Char) (hne : t ≠ [])
    (hns : ∀ c ∈ t, c ≠ ' ') : tokenize t = [t] := by
  cases t with
  | nil => exact absurd rfl hne
  | cons c cs =>
    rw [tokenize_eq_maxNonSpaceRuns]
    have hc : c ≠ ' ' := hns c (List.mem_cons_self c cs)
    have htake : cs.takeWhile (fun d => !(d = ' ')) = cs :=
      List.takeWhile_eq_self_iff.mpr
        (fun d hd => by simpa using hns d (List.mem_cons_of_mem c hd))
    have hdrop : cs.dropWhile (fun d => !(d = ' ')) = [] :=
      List.dropWhile_eq_nil_iff.mpr
        (fun d hd => by simpa using hns d (List.mem_cons_of_mem c hd))
    simp [maxNonSpaceRuns, maxRuns_cons, hc, htake, hdrop, maxRuns, maxRunsF]

theorem tokenize_run_space (t r : List Char) (hne : t ≠ [])
    (hns : ∀ c ∈ t, c ≠ ' ') :
    tokenize (t ++ ' ' :: r) = t :: tokenize r := by
  cases t with
  | nil => exact absurd rfl hne
  | cons c cs =>
    rw [tokenize_eq_maxNonSpaceRuns, tokenize_eq_maxNonSpaceRuns]
    have hc : c ≠ ' ' := hns c (List.mem_cons_self c cs)
    have hall : ∀ d ∈ cs, (fun d => !(d = ' ')) d = true :=
      fun d hd => by simpa using hns d (List.mem_cons_of_mem c hd)
    have hsp : (fun d => !(d = ' ')) ' ' = false := by simp
    simp only [List.cons_append, maxNonSpaceRuns, maxRuns_cons]
    rw [takeWhile_append_of_all _ r cs hall ' ' hsp,
      dropWhile_append_of_all _ r cs hall ' ' hsp]
    simp [hc, maxRuns_cons]

theorem tokenize_joinTokens (ts : List (List Char))
    (h : ∀ t ∈ ts, t ≠ [] ∧ ∀ c ∈ t, c ≠ ' ') :
    tokenize (joinTokens ts) = ts := by
  induction ts with
  | nil => rfl
  | cons t ts ih =>
    cases ts with
    | nil =>
      obtain ⟨hne, hns⟩ := h t (List.mem_cons_self t [])
      simpa [joinTokens] using tokenize_single t hne hns
    | cons t' ts' =>
      obtain ⟨hne, hns⟩ := h t (List.mem_cons_self t _)
      simp only [joinTokens]
      rw [tokenize_run_space t _ hne hns,
        ih (fun u hu => h u (List.mem_cons_of_mem t hu))]

theorem cmdParseLoop_eq (argMax : Nat) :
    ∀ (ts : List (List Char)) (i : Nat),
      cmdParseLoop argMax ts i =
        (ts.take (argMax - 1 - i)).map some ++ [none] := by
  intro ts
  induction ts with
  | nil => intro i; simp [cmdParseLoop]
  | cons t ts ih =>
    intro i
    by_cases h : i < argMax - 1
    · have htake : argMax - 1 - i = (argMax - 1 - (i + 1)) + 1 := by omega
      simp only [cmdParseLoop, if_pos h, ih (i + 1), htake, List.take_succ_cons,
        List.map_cons, List.cons_append]
    · have htake : argMax - 1 - i = 0 := by omega
      simp [cmdParseLoop, if_neg h, htake]

theorem cmd_parse_eq (argMax : Nat) (line : List Char) :
    cmd_parse argMax line =
      ((tokenize line).take (argMax - 1)).map some ++ [none] := by
  simp [cmd_parse, cmdParseLoop_eq]

/-- Abstraction of the OS environment seen by `change_dir` (lab.c 114-130):
the value of `getenv("HOME")`, the home directory `getpwuid(getuid())`
reports (`none` when the lookup returns NULL or a NULL `pw_dir`), and the
set of paths for which `chdir` succeeds. -/
structure Env where
  home : Option String
  pwDir : Option String
  validDir : String → Bool

/-- Result of a `change_dir` call: the C return value, the working
directory after the call (given the one before), and whether `perror("cd")`
ran. A failing `chdir` leaves the working directory unchanged. -/
structure CdResult where
  ret : Int
  cwd : String
  errReported : Bool
deriving DecidableEq, Repr

/-- Embedding of `change_dir` (lab.c 114-130). `args` is the NULL-terminated
argument array as the list of its non-NULL entries, so `args[1] == NULL`
corresponds to `args[1]? = none`. -/
def change_dir (env : Env) (cwd : String) (args : List String) : CdResult :=
  match args[1]? with
  | none =>
    let home : Option String :=
      match env.home with
      | some h => some h
      | none => env.pwDir
    match home with
    | some h => if env.validDir h then ⟨0, h, false⟩ else ⟨-1, cwd, true⟩
    | none => ⟨0, cwd, false⟩
  | some p => if env.validDir p then ⟨0, p, false⟩ else ⟨-1, cwd, true⟩

/-- Outcome of `do_builtin` (lab.c 139-157): either the `exit` branch runs
(`sh_destroy` then `exit(0)`, so control never returns), or the function
returns `handled` to its caller; `cwd` and `errReported` carry the effect
of a `cd` dispatch. -/
inductive DispatchResult where
  | exitShell (status : Nat)
  | ret (handled : Bool) (cwd : String) (errReported : Bool)
deriving DecidableEq, Repr

/-- Embedding of `do_builtin` (lab.c 139-157). The `history` branch only
prints (an effect not tracked here) and returns true. -/
def do_builtin (env : Env) (cwd : String) (argv : List String) : DispatchResult :=
  match argv.head? with
  | none => .ret false cwd false
  | some a0 =>
    if a0 = "exit" then .exitShell 0
    else if a0 = "cd" then
      let r := change_dir env cwd argv
      .ret (r.ret = 0) r.cwd r.errReported
    else if a0 = "history" then .ret true cwd false
    else .ret false cwd false

/-- The five signals whose dispositions lab.c manipulates: SIGINT, SIGQUIT,
SIGTSTP, SIGTTIN, SIGTTOU. -/
inductive Sig where
  | sigint | sigquit | sigtstp | sigttin | sigttou
deriving DecidableEq, Repr

/-- Observable events of `execute_command` (lab.c 202-222), in program
order for the continuation being described. -/
inductive Event where
  | forkCall
  | resetSignal (s : Sig)
  | execAttempt (prog : String) (argv : List String)
  | imageReplaced (prog : String)
  | reportError (which : String)
  | exitProcess (status : Nat)
  | waitForChild (pid : Nat)
deriving DecidableEq, Repr

/-- The outcome of `fork()`: 0 in the child continuation, a positive pid in
the parent continuation, a negative value on failure. -/
inductive ForkResult where
  | child
  | parent (pid : Nat)
  | failed
deriving DecidableEq, Repr

/-- Embedding of `execute_command` (lab.c 202-222) as the event trace of the
continuation selected by `fork`: `execOk` tells whether `execvp` succeeds
(in which case the process image is replaced and nothing after it runs) or
fails (in which case `execvp` returns and the child runs `perror` and
`exit(EXIT_FAILURE)`, with `EXIT_FAILURE = 1`). -/
def execute_command (fork : ForkResult) (execOk : Bool)
    (cmd : Option (List String)) : List Event :=
  match cmd with
  | none => []
  | some [] => []
  | some (c0 :: rest) =>
    Event.forkCall ::
    match fork with
    | .child =>
      [Event.resetSignal .sigint, Event.resetSignal .sigquit,
       Event.resetSignal .sigtstp, Event.resetSignal .sigttin,
       Event.resetSignal .sigttou,
       Event.execAttempt c0 (c0 :: rest)] ++
      (if execOk then [Event.imageReplaced c0]
       else [Event.reportError "execvp", Event.exitProcess 1])
    | .parent pid => [Event.waitForChild pid]
    | .failed => [Event.reportError "fork"]

example : tokenize "ls -la /tmp".toList = ["ls".toList, "-la".toList, "/tmp".toList] := by decide
example : tokenize "a  b ".toList = ["a".toList, "b".toList] := by decide
example : tokenize ['a', '\t', 'b'] = [['a', '\t', 'b']] := by decide
example : maxNonWhiteRuns ['a', '\t', 'b'] = [['a'], ['b']] := by decide
example : cmd_parse 4096 "".toList = [none] := by decide
example : cmd_parse 3 "a b c d".toList = [some ['a'], some ['b'], none] := by decide

/-! ### Claim theorems -/

/-- C2 counterexample: the tokenizer does not split on tab. On the trimmed
line `"a\tb"` the code produces the single token `"a\tb"`, while the
maximal non-whitespace runs (whitespace as the claim defines it, including
tab) are `"a"` and `"b"`. -/
theorem cmd_parse_tab_counterexample :
    tokenize ['a', '\t', 'b'] = [['a', '\t', 'b']] ∧
    maxNonWhiteRuns ['a', '\t', 'b'] = [['a'], ['b']] ∧
    tokenize ['a', '\t', 'b'] ≠ maxNonWhiteRuns ['a', '\t', 'b'] := by
  refine ⟨by decide, by decide, by decide⟩

/-- C2 (amended): the tokenizer splits the line on runs of ASCII space
characters only (tab and other whitespace are not delimiters); the tokens
are exactly the maximal non-space runs of the input, and re-tokenizing the
tokens rejoined with single spaces reproduces the same token sequence. -/
theorem tokenize_space_runs_and_idempotent (line : List Char) :
    tokenize line = maxNonSpaceRuns line ∧
    tokenize (joinTokens (tokenize line)) = tokenize line :=
  ⟨tokenize_eq_maxNonSpaceRuns line,
    tokenize_joinTokens (tokenize line) (tokenize_no_space line)⟩

/-- C2 witness: the amended claim evaluated on the line `"a  b "`. -/
theorem tokenize_space_runs_witness :
    tokenize "a  b ".toList = maxNonSpaceRuns "a  b ".toList ∧
    tokenize (joinTokens (tokenize "a  b ".toList)) = tokenize "a  b ".toList :=
  tokenize_space_runs_and_idempotent "a  b ".toList

/-- C5: `cmd_parse "ls -la /tmp"` yields the three tokens `ls`, `-la`,
`/tmp` followed by the terminating NULL cell, and `cmd_parse ""` yields
just the terminating NULL cell, for any `ARG_MAX` of at least 4 (the real
`sysconf(_SC_ARG_MAX)` is far larger). -/
theorem cmd_parse_examples (argMax : Nat) (h : 4 ≤ argMax) :
    cmd_parse argMax "ls -la /tmp".toList =
      [some "ls".toList, some "-la".toList, some "/tmp".toList, none] ∧
    cmd_parse argMax "".toList = [none] := by
  have htok : tokenize "ls -la /tmp".toList =
      ["ls".toList, "-la".toList, "/tmp".toList] := by decide
  constructor
  · rw [cmd_parse_eq, htok, List.take_of_length_le (by simp; omega)]
    rfl
  · have htok0 : tokenize "".toList = [] := rfl
    rw [cmd_parse_eq, htok0, List.take_nil]
    rfl

/-- C5 witness: the theorem applied at `ARG_MAX = 4096`. -/
theorem cmd_parse_examples_witness :
    cmd_parse 4096 "ls -la /tmp".toList =
      [some "ls".toList, some "-la".toList, some "/tmp".toList, none] ∧
    cmd_parse 4096 "".toList = [none] :=
  cmd_parse_examples 4096 (by omega)

/-- C6: every array `cmd_parse` produces (for every input line and every
`ARG_MAX`, the empty line included) is a block of non-NULL cells followed
by exactly one terminating NULL cell, so a consumer can find its length by
scanning for the sentinel. -/
theorem cmd_parse_sentinel_terminated (argMax : Nat) (line : List Char) :
    ∃ ts : List (List Char),
      cmd_parse argMax line = ts.map some ++ [none] :=
  ⟨(tokenize line).take (argMax - 1), cmd_parse_eq argMax line⟩

/-- C6 witness: the sentinel-termination theorem at a concrete line. -/
theorem cmd_parse_sentinel_terminated_witness :
    ∃ ts : List (List Char),
      cmd_parse 4096 "hi there".toList = ts.map some ++ [none] :=
  cmd_parse_sentinel_terminated 4096 "hi there".toList

/-- C10: `cmd_parse` stores at most `ARG_MAX - 1` tokens: the array is the
first `ARG_MAX - 1` tokens (tokens beyond the cap are silently dropped)
followed by the terminating NULL cell, the number of non-NULL cells is at
most `ARG_MAX - 1`, and the last cell is the sentinel. -/
theorem cmd_parse_cap (argMax : Nat) (line : List Char) :
    cmd_parse argMax line =
      ((tokenize line).take (argMax - 1)).map some ++ [none] ∧
    (cmd_parse argMax line).countP (fun c => c.isSome) ≤ argMax - 1 ∧
    (cmd_parse argMax line).getLast? = some none := by
  refine ⟨cmd_parse_eq argMax line, ?_, ?_⟩
  · rw [cmd_parse_eq, List.countP_append]
    have hall : ∀ a ∈ ((tokenize line).take (argMax - 1)).map some,
        (fun c : Option (List Char) => c.isSome) a = true := by
      intro a ha
      obtain ⟨t, _, rfl⟩ := List.mem_map.mp ha
      rfl
    have h1 : (((tokenize line).take (argMax - 1)).map some).countP
        (fun c => c.isSome) = ((tokenize line).take (argMax - 1)).length := by
      rw [List.countP_eq_length.mpr hall, List.length_map]
    have h2 : ([(none : Option (List Char))]).countP (fun c => c.isSome) = 0 := by
      decide
    rw [h1, h2, List.length_take]
    omega
  · rw [cmd_parse_eq]
    exact List.getLast?_concat _

/-- C10 witness: with `ARG_MAX = 3` the line `"a b c d"` keeps only the
first two tokens, sentinel-terminated at the cap. -/
theorem cmd_parse_cap_witness :
    cmd_parse 3 "a b c d".toList =
      ((tokenize "a b c d".toList).take 2).map some ++ [none] ∧
    (cmd_parse 3 "a b c d".toList).countP (fun c => c.isSome) ≤ 2 ∧
    (cmd_parse 3 "a b c d".toList).getLast? = some none :=
  cmd_parse_cap 3 "a b c d".toList

/-- An environment in which no `chdir` target is accessible (so the target
`/nonexistent-path-xyz` does not exist). -/
def envNoDirs : Env :=
  ⟨some "/home/user", some "/home/user", fun _ => false⟩

/-- C1 failing input: dispatching `["cd", "/nonexistent-path-xyz"]` when the
target does not exist. `do_builtin` does report the error (`perror` runs)
and does not terminate the shell, but it returns `handled = false` — the
recognized built-in `cd` is reported as NOT handled, so the caller falls
through to external execution, contradicting the claim. -/
theorem do_builtin_failing_cd_not_handled :
    do_builtin envNoDirs "/start" ["cd", "/nonexistent-path-xyz"] =
      DispatchResult.ret false "/start" true := by
  decide

/-- C4: `cd` with no argument goes to `$HOME` when it is set and accessible;
with `HOME` unset it goes to the home directory from the user database; and
`cd` to an inaccessible target returns -1, reports the error, and leaves
the working directory unchanged. -/
theorem change_dir_home_and_error (env : Env) (cwd : String) (args : List String) :
    (args[1]? = none → ∀ h, env.home = some h →
        env.validDir h = true → change_dir env cwd args = ⟨0, h, false⟩) ∧
    (args[1]? = none → env.home = none → ∀ h, env.pwDir = some h →
        env.validDir h = true → change_dir env cwd args = ⟨0, h, false⟩) ∧
    (∀ p, args[1]? = some p → env.validDir p = false →
        change_dir env cwd args = ⟨-1, cwd, true⟩) := by
  refine ⟨?_, ?_, ?_⟩
  · intro h1 h hh hv
    simp [change_dir, h1, hh, hv]
  · intro h1 hh h hp hv
    simp [change_dir, h1, hh, hp, hv]
  · intro p hp hv
    simp [change_dir, hp, hv]

/-- An environment with `HOME` set to an accessible `/home/u`. -/
def envHome : Env := ⟨some "/home/u", none, fun p => p = "/home/u"⟩

/-- An environment with `HOME` unset and the user database reporting the
accessible home directory `/pwhome`. -/
def envPw : Env := ⟨none, some "/pwhome", fun p => p = "/pwhome"⟩

/-- C4 witness: the three branches evaluated on concrete environments. -/
theorem change_dir_home_and_error_witness :
    change_dir envHome "/start" ["cd"] = ⟨0, "/home/u", false⟩ ∧
    change_dir envPw "/start" ["cd"] = ⟨0, "/pwhome", false⟩ ∧
    change_dir envHome "/start" ["cd", "/nope"] = ⟨-1, "/start", true⟩ :=
  ⟨(change_dir_home_and_error envHome "/start" ["cd"]).1 rfl "/home/u" rfl (by decide),
   (change_dir_home_and_error envPw "/start" ["cd"]).2.1 rfl rfl "/pwhome" rfl (by decide),
   (change_dir_home_and_error envHome "/start" ["cd", "/nope"]).2.2 "/nope" rfl (by decide)⟩

/-- C9: when `cd` has no argument, `HOME` is unset, and the user-database
lookup yields no home directory, `change_dir` returns 0 (success) without
attempting any directory change and without reporting any error. -/
theorem change_dir_no_home_silent_success (env : Env) (cwd : String)
    (args : List String) (h1 : args[1]? = none)
    (h2 : env.home = none) (h3 : env.pwDir = none) :
    change_dir env cwd args = ⟨0, cwd, false⟩ := by
  simp [change_dir, h1, h2, h3]

/-- An environment with `HOME` unset and no user-database home directory. -/
def envNoHome : Env := ⟨none, none, fun _ => true⟩

/-- C9 witness: `cd` with no argument in `envNoHome` silently succeeds. -/
theorem change_dir_no_home_silent_success_witness :
    change_dir envNoHome "/start" ["cd"] = ⟨0, "/start", false⟩ :=
  change_dir_no_home_silent_success envNoHome "/start" ["cd"] rfl rfl rfl

/-- C3: in the child continuation all five job-control signal dispositions
(SIGINT, SIGQUIT, SIGTSTP, SIGTTIN, SIGTTOU) are reset to their default
behavior at a position strictly before the `execvp` attempt, and when the
replacement fails the child reports the failure and its very last action is
`exit(1)` (a non-zero status) — nothing after the failed attempt returns to
shell logic. -/
theorem execute_command_child_resets_before_exec (execOk : Bool)
    (c0 : String) (rest : List String) :
    (∃ pre post,
      execute_command ForkResult.child execOk (some (c0 :: rest)) =
        pre ++ Event.execAttempt c0 (c0 :: rest) :: post ∧
      ∀ s : Sig, Event.resetSignal s ∈ pre) ∧
    (execOk = false →
      Event.reportError "execvp" ∈
        execute_command ForkResult.child execOk (some (c0 :: rest)) ∧
      (execute_command ForkResult.child execOk (some (c0 :: rest))).getLast? =
        some (Event.exitProcess 1)) := by
  constructor
  · refine ⟨[Event.forkCall, Event.resetSignal .sigint, Event.resetSignal .sigquit,
      Event.resetSignal .sigtstp, Event.resetSignal .sigttin,
      Event.resetSignal .sigttou],
      (if execOk then [Event.imageReplaced c0]
       else [Event.reportError "execvp", Event.exitProcess 1]), rfl, ?_⟩
    intro s
    cases s <;> simp
  · intro h
    subst h
    exact ⟨by simp [execute_command], rfl⟩

/-- C3 witness: the failed-`execvp` child at a concrete command ends in
`exit(1)`. -/
theorem execute_command_child_resets_witness :
    Event.reportError "execvp" ∈
      execute_command ForkResult.child false (some ["nosuchprog"]) ∧
    (execute_command ForkResult.child false (some ["nosuchprog"])).getLast? =
      some (Event.exitProcess 1) :=
  (execute_command_child_resets_before_exec false "nosuchprog" []).2 rfl

/-- C7: for a NULL command array (allocation failure) and for an empty
command (no tokens), `execute_command` does nothing at all: its event trace
is empty, so no fork, no exec, no wait, and control returns to the session
loop. -/
theorem execute_command_null_or_empty_noop (fork : ForkResult) (execOk : Bool) :
    execute_command fork execOk none = [] ∧
    execute_command fork execOk (some []) = [] :=
  ⟨rfl, rfl⟩

/-- C7 witness: the no-op theorem at a concrete fork outcome. -/
theorem execute_command_null_or_empty_noop_witness :
    execute_command ForkResult.child true none = [] ∧
    execute_command ForkResult.child true (some []) = [] :=
  execute_command_null_or_empty_noop ForkResult.child true

/-- C8: when `fork()` fails, `execute_command` only reports the failure:
the trace is the fork call followed by `perror("fork")`, with no wait, no
exec attempt, and no process exit — the shell continues its loop. -/
theorem execute_command_fork_failure (execOk : Bool) (c0 : String)
    (rest : List String) :
    execute_command ForkResult.failed execOk (some (c0 :: rest)) =
      [Event.forkCall, Event.reportError "fork"] ∧
    (∀ pid, Event.waitForChild pid ∉
        execute_command ForkResult.failed execOk (some (c0 :: rest))) ∧
    (∀ p a, Event.execAttempt p a ∉
        execute_command ForkResult.failed execOk (some (c0 :: rest))) ∧
    (∀ n, Event.exitProcess n ∉
        execute_command ForkResult.failed execOk (some (c0 :: rest))) := by
  refine ⟨rfl, ?_, ?_, ?_⟩
  · intro pid
    simp [execute_command]
  · intro p a
    simp [execute_command]
  · intro n
    simp [execute_command]

/-- C8 witness: the fork-failure theorem at a concrete command. -/
theorem execute_command_fork_failure_witness :
    execute_command ForkResult.failed true (some ["ls"]) =
      [Event.forkCall, Event.reportError "fork"] :=
  (execute_command_fork_failure true "ls" []).1
